import Mathlib

/-!
Verification of the delta-detection and incremental-sync engine of the
OptiBot daily sync job (`src/main.py`).

The Python code is shallowly embedded: files on disk become `MdFile` values,
the persisted JSON sync state becomes `SyncState` over an association list
(Python `dict` with unique keys), the remote index API becomes an `Oracle`
recording which calls succeed, and exceptions become `Option`/explicit
outcome values.  The SHA-256 hasher is modelled by the sequence of bytes it
has absorbed (`hashlib` guarantees the digest depends only on the
concatenation of the `update` inputs), with the final hex digest an
arbitrary function `hexdigest` of that sequence, so that every theorem holds
for the real digest function in particular.
-/

set_option autoImplicit false

namespace OptiSync

/-- A Markdown article on disk: its filename (the document key used by the
sync state), its raw bytes (what `compute_sha256` reads), and the result of
decoding it as UTF-8 text; `text = none` models `read_text` raising, which
`detect_delta` swallows by setting the marker to `None`
(src/main.py lines 120-124). -/
structure MdFile where
  name : String
  bytes : List Nat
  text : Option String
deriving DecidableEq, Repr

/-- One entry of the sync state's `files` map, as written by `main`
(src/main.py lines 349-355, 365-371).  Every field is optional because the
code reads entries with `dict.get`, which yields `None` when the key is
missing (src/main.py lines 131-132, 142). -/
structure FileRecord where
  hash : Option String
  file_id : Option String
  last_modified : Option String
  last_sync : Option String
  size : Option Nat
deriving DecidableEq, Repr

/-- The persisted sync state (`sync_state.json`): the `files` map is a
Python dict, modelled as an association list whose keys are unique, plus the
top-level bookkeeping fields set in src/main.py lines 378-385. -/
structure SyncState where
  files : List (String × FileRecord)
  last_run : Option String
  assistant_id : Option String
  vector_store_id : Option String
  total_files : Option Nat
  total_size : Option Nat
deriving DecidableEq, Repr

/-- The default state returned by `read_sync_state` on every failure path:
Python literal `{"files": {}, "last_run": None}` (src/main.py lines 68, 72,
75). -/
def emptySyncState : SyncState :=
  { files := [], last_run := none, assistant_id := none,
    vector_store_id := none, total_files := none, total_size := none }

/-! ### Python dict operations on the `files` association list -/

/-- Python `d[k]` / `d.get(k)`: first (unique) entry with the given key. -/
def dictGet : List (String × FileRecord) → String → Option FileRecord
  | [], _ => none
  | p :: rest, k => if p.1 = k then some p.2 else dictGet rest k

/-- Python `d[k] = v`: replace the entry in place if the key is present,
otherwise append it. -/
def dictInsert : List (String × FileRecord) → String → FileRecord → List (String × FileRecord)
  | [], k, v => [(k, v)]
  | p :: rest, k, v => if p.1 = k then (k, v) :: rest else p :: dictInsert rest k v

/-- Python `d.pop(k, None)`: drop the (unique) entry with the given key. -/
def dictErase : List (String × FileRecord) → String → List (String × FileRecord)
  | [], _ => []
  | p :: rest, k => if p.1 = k then rest else p :: dictErase rest k

/-- Keys of the map, in dict iteration order. -/
def dictKeys (m : List (String × FileRecord)) : List String :=
  m.map Prod.fst

/-! ### SHA-256 over the file, in 1 MiB chunks (src/main.py lines 168-173) -/

/-- One `h.update(chunk)` step of the incremental hasher, modelled on the
absorbed byte sequence. -/
def sha256_update (acc chunk : List Nat) : List Nat :=
  acc ++ chunk

/-- Worker for `readChunks`: the fuel starts at the file's length and bounds
the number of reads; while bytes remain, read at most `n` of them.  When
`n ≥ 1` and the fuel is at least the number of remaining bytes, the fuel
never runs out before the data does. -/
def readChunksAux (n : Nat) : Nat → List Nat → List (List Nat)
  | _, [] => []
  | 0, _ :: _ => []
  | fuel + 1, d => d.take n :: readChunksAux n fuel (d.drop n)

/-- The chunks produced by `iter(lambda: f.read(n), b"")`: successive reads
of at most `n` bytes until a read returns the empty chunk (`f.read 0`
returns the empty chunk at once, so the loop yields nothing for `n = 0`). -/
def readChunks (n : Nat) (data : List Nat) : List (List Nat) :=
  if n = 0 then [] else readChunksAux n data.length data

/-- `compute_sha256` (src/main.py lines 168-173): absorb the file in 1 MiB
chunks, then take the hex digest.  `hexdigest` is the (arbitrary) final
digest function applied to the absorbed bytes. -/
def compute_sha256 (hexdigest : List Nat → String) (data : List Nat) : String :=
  hexdigest ((readChunks (1024 * 1024) data).foldl sha256_update [])

/-- Specification-side digest: SHA-256 of the whole byte content in one
pass. -/
def sha256_onepass (hexdigest : List Nat → String) (data : List Nat) : String :=
  hexdigest data

/-! ### Last-Modified marker (src/main.py lines 90-96) -/

/-- `parse_last_modified`: first line starting with the fixed marker, with
the marker text removed everywhere in the line (Python `str.replace`) and
the result stripped of surrounding whitespace. -/
def parse_last_modified (content : String) : Option String :=
  (content.splitOn "\n").findSome? fun line =>
    if line.startsWith "Last Modified:" then
      some ((line.replace "Last Modified:" "").trim)
    else none

/-- The marker `detect_delta` computes for a file: `none` when reading the
text raised, otherwise `parse_last_modified` of the content
(src/main.py lines 119-124). -/
def file_last_modified (f : MdFile) : Option String :=
  match f.text with
  | none => none
  | some c => parse_last_modified c

/-! ### Delta detection (src/main.py lines 99-162) -/

/-- The change test of src/main.py lines 134-140: `hash_changed` compares
the stored optional hash with the fresh digest (Python `None != str` is
true), and `date_changed` requires both markers present and different. -/
def changed (hexdigest : List Nat → String) (r : FileRecord) (f : MdFile) : Prop :=
  r.hash ≠ some (compute_sha256 hexdigest f.bytes) ∨
    (r.last_modified ≠ file_last_modified f ∧
      file_last_modified f ≠ none ∧ r.last_modified ≠ none)

instance (hexdigest : List Nat → String) (r : FileRecord) (f : MdFile) :
    Decidable (changed hexdigest r f) := by
  unfold changed; infer_instance

/-- The loop over current files (src/main.py lines 115-153), returning
`(to_add, to_update, skipped)` in traversal order; an updated file carries
the stored `file_id` with default `""` (line 142). -/
def classify_current (hexdigest : List Nat → String)
    (known : List (String × FileRecord)) :
    List MdFile → List MdFile × List (MdFile × String) × Nat
  | [] => ([], [], 0)
  | f :: rest =>
    let acc := classify_current hexdigest known rest
    match dictGet known f.name with
    | none => (f :: acc.1, acc.2.1, acc.2.2)
    | some r =>
      if changed hexdigest r f then
        (acc.1, (f, r.file_id.getD "") :: acc.2.1, acc.2.2)
      else (acc.1, acc.2.1, acc.2.2 + 1)

/-- The detector's output (src/main.py line 162). -/
structure DeltaResult where
  to_add : List MdFile
  to_update : List (MdFile × String)
  removed : List String
  skipped : Nat
deriving DecidableEq, Repr

/-- `detect_delta` (src/main.py lines 99-162): classify every current file
against the prior state's `files` map, then report every known key missing
from the current filename set as removed. -/
def detect_delta (hexdigest : List Nat → String) (files : List MdFile)
    (st : SyncState) : DeltaResult :=
  let known := st.files
  let acc := classify_current hexdigest known files
  { to_add := acc.1
    to_update := acc.2.1
    removed := (dictKeys known).filter fun n =>
      decide (n ∉ files.map MdFile.name)
    skipped := acc.2.2 }

/-- The classifier deciding whether a current file lands in `to_update`, and
with which carried-forward file id (src/main.py lines 130-149). -/
def classU (hexdigest : List Nat → String) (known : List (String × FileRecord))
    (f : MdFile) : Option (MdFile × String) :=
  match dictGet known f.name with
  | none => none
  | some r =>
    if changed hexdigest r f then some (f, r.file_id.getD "") else none

/-- The classifier deciding whether a current file is counted as skipped
(src/main.py lines 150-153). -/
def unchangedB (hexdigest : List Nat → String)
    (known : List (String × FileRecord)) (f : MdFile) : Bool :=
  match dictGet known f.name with
  | none => false
  | some r => decide (¬ changed hexdigest r f)


/-! ### Reading the persisted state (src/main.py lines 64-75) -/

/-- What happens when `read_sync_state` touches the state file: the file is
absent, the existence check or read raises `PermissionError`, some other
exception occurs, or the file's text is obtained. -/
inductive ReadOutcome where
  | missing
  | permissionDenied
  | ioError
  | content (s : String)
deriving DecidableEq, Repr

/-- `read_sync_state` (src/main.py lines 64-75): a missing file, a
`PermissionError`, any other read error, or a `json.loads` failure
(`parse s = none`) all yield the empty default state; only a successfully
parsed file yields its contents. -/
def read_sync_state (parse : String → Option SyncState) :
    ReadOutcome → SyncState
  | .missing => emptySyncState
  | .permissionDenied => emptySyncState
  | .ioError => emptySyncState
  | .content s =>
    match parse s with
    | some st => st
    | none => emptySyncState

/-! ### The remote index API (src/main.py lines 235-259) -/

/-- Outcomes of the remote calls made by `upload_delta`, one deterministic
outcome per argument: whether `vector_stores.files.delete` and
`files.delete` succeed for a given file id, whether `files.create` succeeds
for a given path (returning the new file id) and whether attaching that id
to the vector store succeeds. -/
structure Oracle where
  vsDelete : String → Bool
  fileDelete : String → Bool
  upload : String → Option String
  attach : String → Bool

/-- The retirement loop of src/main.py lines 243-250: for each updated
file's old id, try the two delete calls inside `try ... except: pass`; the
id is appended to `deleted_ids` only when both calls succeed (the second
call is reached only if the first did not raise). -/
def delete_loop (o : Oracle) : List (MdFile × String) → List String
  | [] => []
  | pu :: rest =>
    if o.vsDelete pu.2 then
      if o.fileDelete pu.2 then pu.2 :: delete_loop o rest
      else delete_loop o rest
    else delete_loop o rest

/-- The upload set of src/main.py line 253: added files, then updated
files. -/
def upload_paths (files_to_add : List MdFile)
    (files_to_update : List (MdFile × String)) : List MdFile :=
  files_to_add ++ files_to_update.map Prod.fst

/-- One iteration of the upload loop body (src/main.py lines 255-257):
`files.create` then `vector_stores.files.create`; `none` means one of the
two raised. -/
def uploadStep (o : Oracle) (p : MdFile) : Option String :=
  match o.upload p.name with
  | none => none
  | some fid => if o.attach fid then some fid else none

/-- The upload loop (src/main.py lines 254-258).  It has no exception
handler, so the first failing step aborts the whole loop: the result is
`(none, attempted)` where `attempted` lists the files for which an upload
was started.  On success it returns the accumulated `new_ids` map. -/
def uploadLoop (o : Oracle) : List MdFile →
    Option (List (String × String)) × List String
  | [] => (some [], [])
  | p :: rest =>
    match uploadStep o p with
    | none => (none, [p.name])
    | some fid =>
      let acc := uploadLoop o rest
      (acc.1.map fun ids => (p.name, fid) :: ids, p.name :: acc.2)

/-- The value `upload_delta` produces: the `new_ids` map (`none` when an
upload exception escaped), the old ids whose deletion succeeded, and the
names of the files whose upload was attempted. -/
structure UploadOutcome where
  new_ids : Option (List (String × String))
  deleted_ids : List String
  attempted : List String
deriving DecidableEq, Repr

/-- `upload_delta` (src/main.py lines 235-259): retire old artifacts of
updated files (failures swallowed), then upload and attach every added and
updated file sequentially. -/
def upload_delta (o : Oracle) (files_to_add : List MdFile)
    (files_to_update : List (MdFile × String)) : UploadOutcome :=
  let deleted := delete_loop o files_to_update
  let acc := uploadLoop o (upload_paths files_to_add files_to_update)
  { new_ids := acc.1, deleted_ids := deleted, attempted := acc.2 }

/-! ### State reconciliation and the run pipeline (src/main.py lines 262-407) -/

/-- The record written for an added or updated file (src/main.py
lines 349-355 and 365-371): fresh digest, new file id with default `""`,
freshly parsed marker, the run timestamp, and the file's size. -/
def record_for (hexdigest : List Nat → String) (new_ids : List (String × String))
    (t : String) (f : MdFile) : FileRecord :=
  { hash := some (compute_sha256 hexdigest f.bytes)
    file_id := some (((new_ids.find? fun q => q.1 = f.name).map Prod.snd).getD "")
    last_modified := file_last_modified f
    last_sync := some t
    size := some f.bytes.length }

/-- Step 5 of `main` (src/main.py lines 336-387): write a fresh record for
every added and for every updated file, pop every removed key, and set the
top-level bookkeeping fields. -/
def update_state (hexdigest : List Nat → String) (st : SyncState)
    (d : DeltaResult) (new_ids : List (String × String)) (t : String)
    (aid vsid : String) (files : List MdFile) : SyncState :=
  let k1 := d.to_add.foldl
    (fun m f => dictInsert m f.name (record_for hexdigest new_ids t f)) st.files
  let k2 := d.to_update.foldl
    (fun m pu => dictInsert m pu.1.name (record_for hexdigest new_ids t pu.1)) k1
  let k3 := d.removed.foldl (fun m n => dictErase m n) k2
  { files := k3
    last_run := some t
    assistant_id := some aid
    vector_store_id := some vsid
    total_files := some files.length
    total_size := some (files.map fun f => f.bytes.length).sum }

/-- The post-scrape pipeline of `main` (src/main.py lines 310-388): detect
the delta, upload it when non-empty (an exception escaping `upload_delta`
makes the whole run fail before any state is written, src/main.py
lines 402-407), and on success reconcile and return the state that
`write_sync_state` persists.  `none` is a failed run. -/
def main_run (hexdigest : List Nat → String) (o : Oracle) (files : List MdFile)
    (st : SyncState) (t : String) (aid vsid : String) : Option SyncState :=
  let d := detect_delta hexdigest files st
  let new_ids? :=
    if d.to_add.isEmpty && d.to_update.isEmpty then some []
    else (upload_delta o d.to_add d.to_update).new_ids
  match new_ids? with
  | none => none
  | some new_ids => some (update_state hexdigest st d new_ids t aid vsid files)

/-- The files `main` can write. -/
inductive WriteTarget where
  | syncState
  | runSummary
deriving DecidableEq, Repr

/-- The writes `main` performs, traced from src/main.py lines 262-407: the
success path writes only `sync_state.json` (line 387) and the failure path
re-raises without writing anything (lines 402-407).  No statement in `main`
writes the run-summary artifact `runs/last_run.json`; it is only ever
mentioned in the module docstring (lines 22-23). -/
def main_writes (hexdigest : List Nat → String) (o : Oracle)
    (files : List MdFile) (st : SyncState) (t : String) (aid vsid : String) :
    List WriteTarget :=
  match main_run hexdigest o files st t aid vsid with
  | some _ => [WriteTarget.syncState]
  | none => []

/-! ### Serialization of the state (src/main.py lines 78-87) -/

/-- Insert an entry into a key-sorted list of entries. -/
def insertSorted (p : String × FileRecord) :
    List (String × FileRecord) → List (String × FileRecord)
  | [] => [p]
  | q :: rest => if p.1 ≤ q.1 then p :: q :: rest else q :: insertSorted p rest

/-- Sort the `files` map by key, modelling `json.dumps(..., sort_keys=True)`
(src/main.py line 83). -/
def sortByKey (m : List (String × FileRecord)) : List (String × FileRecord) :=
  m.foldr insertSorted []

/-- Canonical rendering of an optional string field. -/
def renderOptStr : Option String → String
  | none => "null"
  | some s => "str:" ++ s

/-- Canonical rendering of a `FileRecord`, fields in sorted key order. -/
def renderRecord (r : FileRecord) : String :=
  "file_id=" ++ renderOptStr r.file_id ++ ";hash=" ++ renderOptStr r.hash ++
    ";last_modified=" ++ renderOptStr r.last_modified ++
    ";last_sync=" ++ renderOptStr r.last_sync ++
    ";size=" ++ toString (r.size.getD 0) ++ "," ++ toString r.size.isSome

/-- `write_sync_state` (src/main.py lines 78-87) serializes the state
deterministically with sorted keys; this canonical rendering stands in for
`json.dumps(state, indent=2, sort_keys=True)`: a fixed, injective-enough
deterministic function of the state with the `files` entries emitted in
sorted key order. -/
def write_sync_state (st : SyncState) : String :=
  "files=" ++ String.intercalate "," ((sortByKey st.files).map fun p =>
      p.1 ++ "=" ++ renderRecord p.2) ++
    ";last_run=" ++ renderOptStr st.last_run ++
    ";assistant_id=" ++ renderOptStr st.assistant_id ++
    ";vector_store_id=" ++ renderOptStr st.vector_store_id ++
    ";total_files=" ++ toString (st.total_files.getD 0) ++
    ";total_size=" ++ toString (st.total_size.getD 0)

/-- The failure modes of reading the state file, as a predicate on the read
outcome: any outcome other than successfully parsed content. -/
def readFails (parse : String → Option SyncState) : ReadOutcome → Prop
  | .content s => parse s = none
  | _ => True

instance (parse : String → Option SyncState) (r : ReadOutcome) :
    Decidable (readFails parse r) := by
  cases r <;> (unfold readFails; infer_instance)

/-- Every upload step of the given files succeeds under the oracle. -/
def uploads_all_ok (o : Oracle) (l : List MdFile) : Prop :=
  ∀ q ∈ l, uploadStep o q ≠ none

instance (o : Oracle) (l : List MdFile) : Decidable (uploads_all_ok o l) := by
  unfold uploads_all_ok; infer_instance

/-! ### Concrete instances used to exercise the theorems -/

/-- A sample hex-digest function for concrete runs: every theorem below is
proved for an arbitrary digest, so any concrete choice exercises it. -/
def exDigest : List Nat → String := fun bs => toString bs.length

/-- Current file `a.md` with bytes `[1, 2]`; its text was unreadable, so its
change marker is null. -/
def exFileA : MdFile := { name := "a.md", bytes := [1, 2], text := none }

/-- Current file `b.md` with bytes `[3]` and no readable text. -/
def exFileB : MdFile := { name := "b.md", bytes := [3], text := none }

/-- A stored record for `a.md` whose hash matches `exFileA`'s digest under
`exDigest` and which carries a stored change marker. -/
def exRecordA : FileRecord :=
  { hash := some "2"
    file_id := some "old-a"
    last_modified := some "2024-01-01"
    last_sync := some "t0"
    size := some 2 }

/-- A stale record for `a.md`: its stored hash differs from `exFileA`'s
digest, so the file counts as updated by content. -/
def exRecordAStale : FileRecord :=
  { hash := some "0"
    file_id := some "old-a"
    last_modified := some "2024-01-01"
    last_sync := some "t0"
    size := some 2 }

/-- A record for `c.md`, a file that no longer exists on disk. -/
def exRecordC : FileRecord :=
  { hash := some "9"
    file_id := some "old-c"
    last_modified := none
    last_sync := some "t0"
    size := some 9 }

/-- Prior state knowing only `a.md`, with a matching hash. -/
def exStateA : SyncState := { emptySyncState with files := [("a.md", exRecordA)] }

/-- Prior state with a stale `a.md` and a vanished `c.md`. -/
def exStateMix : SyncState :=
  { emptySyncState with
    files := [("a.md", exRecordAStale), ("c.md", exRecordC)] }

/-- A remote API on which every call succeeds. -/
def exOracleOK : Oracle :=
  { vsDelete := fun _ => true
    fileDelete := fun _ => true
    upload := fun _ => some "new-id"
    attach := fun _ => true }

/-- A remote API on which only the upload of `a.md` raises. -/
def exOracleFailA : Oracle :=
  { vsDelete := fun _ => true
    fileDelete := fun _ => true
    upload := fun n => if n = "a.md" then none else some "new-id"
    attach := fun _ => true }

/-- A remote API on which every vector-store delete call raises. -/
def exOracleDelFail : Oracle :=
  { vsDelete := fun _ => false
    fileDelete := fun _ => true
    upload := fun _ => some "new-id"
    attach := fun _ => true }

/-- The state persisted by a successful run of `main_run` over `[exFileB]`
starting from the empty state. -/
def exPostB : SyncState :=
  { files := [("b.md",
      { hash := some "1"
        file_id := some "new-id"
        last_modified := none
        last_sync := some "t1"
        size := some 1 })]
    last_run := some "t1"
    assistant_id := some "A"
    vector_store_id := some "V"
    total_files := some 1
    total_size := some 1 }

/-- The state persisted by a successful run over `[exFileA, exFileB]`
starting from `exStateMix`: `a.md` re-recorded, `b.md` added, `c.md`
popped. -/
def exPostMix : SyncState :=
  { files := [("a.md",
      { hash := some "2"
        file_id := some "new-id"
        last_modified := none
        last_sync := some "t1"
        size := some 2 }),
     ("b.md",
      { hash := some "1"
        file_id := some "new-id"
        last_modified := none
        last_sync := some "t1"
        size := some 1 })]
    last_run := some "t1"
    assistant_id := some "A"
    vector_store_id := some "V"
    total_files := some 2
    total_size := some 3 }

/-! ### Lemmas about the dict operations -/

theorem dictGet_insert (m : List (String × FileRecord)) (k : String)
    (v : FileRecord) (n : String) :
    dictGet (dictInsert m k v) n = if n = k then some v else dictGet m n := by
  induction m with
  | nil =>
    by_cases h : n = k
    · subst h; simp [dictInsert, dictGet]
    · have h' : ¬ k = n := fun he => h he.symm
      simp [dictInsert, dictGet, h, h']
  | cons p rest ih =>
    simp only [dictInsert]
    by_cases hp : p.1 = k
    · rw [if_pos hp]
      by_cases hn : n = k
      · subst hn; simp [dictGet]
      · have h1 : ¬ k = n := fun he => hn he.symm
        have h2 : ¬ p.1 = n := fun he => hn (he.symm.trans hp)
        simp [dictGet, hn, h1, h2]
    · rw [if_neg hp]
      by_cases hq : p.1 = n
      · have h1 : ¬ n = k := fun he => hp (hq.trans he)
        simp [dictGet, hq, h1]
      · simp [dictGet, hq, ih]

theorem dictGet_erase_ne (m : List (String × FileRecord)) (k n : String)
    (h : n ≠ k) :
    dictGet (dictErase m k) n = dictGet m n := by
  induction m with
  | nil => rfl
  | cons p rest ih =>
    simp only [dictErase]
    by_cases hp : p.1 = k
    · rw [if_pos hp]
      have hq : ¬ p.1 = n := fun he => h (he.symm.trans hp)
      simp [dictGet, hq]
    · rw [if_neg hp]
      simp [dictGet, ih]

theorem dictGet_eq_none_iff (m : List (String × FileRecord)) (n : String) :
    dictGet m n = none ↔ n ∉ dictKeys m := by
  induction m with
  | nil => simp [dictGet, dictKeys]
  | cons p rest ih =>
    by_cases hp : p.1 = n
    · simp [dictGet, dictKeys, hp]
    · have hp' : ¬ n = p.1 := fun he => hp he.symm
      simp [dictGet, dictKeys, hp, hp', ih]

theorem mem_dictKeys_insert (m : List (String × FileRecord)) (k : String)
    (v : FileRecord) (n : String) :
    n ∈ dictKeys (dictInsert m k v) ↔ n ∈ dictKeys m ∨ n = k := by
  induction m with
  | nil => simp [dictInsert, dictKeys]
  | cons p rest ih =>
    simp only [dictInsert]
    by_cases hp : p.1 = k
    · rw [if_pos hp]
      simp only [dictKeys, List.map_cons, List.mem_cons]
      rw [hp]
      tauto
    · rw [if_neg hp]
      simp only [dictKeys, List.map_cons, List.mem_cons] at ih ⊢
      rw [ih]
      tauto

theorem nodup_dictKeys_insert (m : List (String × FileRecord)) (k : String)
    (v : FileRecord) (h : (dictKeys m).Nodup) :
    (dictKeys (dictInsert m k v)).Nodup := by
  induction m with
  | nil => simp [dictInsert, dictKeys]
  | cons p rest ih =>
    simp only [dictKeys, List.map_cons, List.nodup_cons] at h
    simp only [dictInsert]
    by_cases hp : p.1 = k
    · rw [if_pos hp]
      simp only [dictKeys, List.map_cons, List.nodup_cons]
      exact ⟨by rw [← hp]; exact h.1, h.2⟩
    · rw [if_neg hp]
      simp only [dictKeys, List.map_cons, List.nodup_cons]
      refine ⟨fun hc => ?_, ih h.2⟩
      rcases (mem_dictKeys_insert rest k v p.1).mp hc with hm | he
      · exact h.1 hm
      · exact hp he

theorem dictErase_sublist (m : List (String × FileRecord)) (k : String) :
    (dictErase m k).Sublist m := by
  induction m with
  | nil => simp [dictErase]
  | cons p rest ih =>
    by_cases hp : p.1 = k
    · simp only [dictErase, if_pos hp]
      exact (List.sublist_cons_self p rest)
    · simp only [dictErase, if_neg hp]
      exact ih.cons₂ p

theorem nodup_dictKeys_erase (m : List (String × FileRecord)) (k : String)
    (h : (dictKeys m).Nodup) : (dictKeys (dictErase m k)).Nodup :=
  ((dictErase_sublist m k).map Prod.fst).nodup h

theorem dictGet_erase_self (m : List (String × FileRecord)) (k : String)
    (h : (dictKeys m).Nodup) : dictGet (dictErase m k) k = none := by
  induction m with
  | nil => rfl
  | cons p rest ih =>
    simp only [dictKeys, List.map_cons, List.nodup_cons] at h
    by_cases hp : p.1 = k
    · simp only [dictErase, if_pos hp]
      rw [dictGet_eq_none_iff]
      exact fun hc => h.1 (hp ▸ hc)
    · simp [dictErase, dictGet, hp, ih h.2]

theorem dictGet_eraseFold (l : List String) (m : List (String × FileRecord))
    (n : String) (h : (dictKeys m).Nodup) :
    dictGet (l.foldl dictErase m) n = if n ∈ l then none else dictGet m n := by
  induction l generalizing m with
  | nil => simp
  | cons k l ih =>
    have hk : (dictKeys (dictErase m k)).Nodup := nodup_dictKeys_erase m k h
    simp only [List.foldl_cons, ih (dictErase m k) hk, List.mem_cons]
    by_cases hl : n ∈ l
    · simp [hl]
    · by_cases hn : n = k
      · subst hn
        simp [hl, dictGet_erase_self m n h]
      · simp [hl, hn, dictGet_erase_ne m k n hn]

theorem nodup_dictKeys_eraseFold (l : List String)
    (m : List (String × FileRecord)) (h : (dictKeys m).Nodup) :
    (dictKeys (l.foldl dictErase m)).Nodup := by
  induction l generalizing m with
  | nil => exact h
  | cons k l ih => exact ih (dictErase m k) (nodup_dictKeys_erase m k h)

theorem mem_dictKeys_iff (m : List (String × FileRecord)) (n : String) :
    n ∈ dictKeys m ↔ dictGet m n ≠ none := by
  rw [Ne, dictGet_eq_none_iff, not_not]

theorem mem_dictKeys_eraseFold (l : List String)
    (m : List (String × FileRecord)) (n : String) (h : (dictKeys m).Nodup) :
    n ∈ dictKeys (l.foldl dictErase m) ↔ n ∈ dictKeys m ∧ n ∉ l := by
  rw [mem_dictKeys_iff, dictGet_eraseFold l m n h]
  by_cases hl : n ∈ l
  · simp [hl]
  · simp [hl, mem_dictKeys_iff]

theorem dictGet_insertFold {α : Type} (key : α → String) (val : α → FileRecord)
    (l : List α) (m : List (String × FileRecord)) (n : String)
    (h : (l.map key).Nodup) :
    dictGet (l.foldl (fun m x => dictInsert m (key x) (val x)) m) n =
      match l.find? (fun x => decide (key x = n)) with
      | some x => some (val x)
      | none => dictGet m n := by
  induction l generalizing m with
  | nil => simp
  | cons x l ih =>
    simp only [List.map_cons, List.nodup_cons] at h
    simp only [List.foldl_cons, List.find?_cons]
    by_cases hx : key x = n
    · have hfind : l.find? (fun y => decide (key y = n)) = none := by
        rw [List.find?_eq_none]
        intro y hy hc
        have : key y = n := of_decide_eq_true hc
        exact h.1 (by rw [hx, ← this]; exact List.mem_map_of_mem key hy)
      rw [ih (dictInsert m (key x) (val x)) h.2, hfind]
      simp [hx, dictGet_insert]
    · rw [ih (dictInsert m (key x) (val x)) h.2]
      have hd : (decide (key x = n)) = false := decide_eq_false hx
      simp only [hd]
      cases hf : l.find? (fun y => decide (key y = n)) with
      | some y => simp [hf]
      | none =>
        simp only [hf]
        rw [dictGet_insert, if_neg (fun he => hx he.symm)]

theorem mem_dictKeys_insertFold {α : Type} (key : α → String)
    (val : α → FileRecord) (l : List α) (m : List (String × FileRecord))
    (n : String) :
    n ∈ dictKeys (l.foldl (fun m x => dictInsert m (key x) (val x)) m) ↔
      n ∈ l.map key ∨ n ∈ dictKeys m := by
  induction l generalizing m with
  | nil => simp
  | cons x l ih =>
    simp only [List.foldl_cons, List.map_cons, List.mem_cons]
    rw [ih, mem_dictKeys_insert]
    tauto

theorem nodup_dictKeys_insertFold {α : Type} (key : α → String)
    (val : α → FileRecord) (l : List α) (m : List (String × FileRecord))
    (h : (dictKeys m).Nodup) :
    (dictKeys (l.foldl (fun m x => dictInsert m (key x) (val x)) m)).Nodup := by
  induction l generalizing m with
  | nil => exact h
  | cons x l ih =>
    exact ih (dictInsert m (key x) (val x)) (nodup_dictKeys_insert m _ _ h)

/-! ### Characterization of the classification loop -/

theorem classify_current_fst (hexdigest : List Nat → String)
    (known : List (String × FileRecord)) (files : List MdFile) :
    (classify_current hexdigest known files).1 =
      files.filter fun f => (dictGet known f.name).isNone := by
  induction files with
  | nil => rfl
  | cons f rest ih =>
    simp only [classify_current, List.filter_cons]
    cases hg : dictGet known f.name with
    | none => simp [hg, ih]
    | some r =>
      by_cases hc : changed hexdigest r f
      · simp [hg, hc, ih]
      · simp [hg, hc, ih]

theorem classify_current_upd (hexdigest : List Nat → String)
    (known : List (String × FileRecord)) (files : List MdFile) :
    (classify_current hexdigest known files).2.1 =
      files.filterMap (classU hexdigest known) := by
  induction files with
  | nil => rfl
  | cons f rest ih =>
    simp only [classify_current, List.filterMap_cons]
    cases hg : dictGet known f.name with
    | none => simp [classU, hg, ih]
    | some r =>
      by_cases hc : changed hexdigest r f
      · simp [classU, hg, hc, ih]
      · simp [classU, hg, hc, ih]

theorem classify_current_skip (hexdigest : List Nat → String)
    (known : List (String × FileRecord)) (files : List MdFile) :
    (classify_current hexdigest known files).2.2 =
      (files.filter (unchangedB hexdigest known)).length := by
  induction files with
  | nil => rfl
  | cons f rest ih =>
    simp only [classify_current, List.filter_cons]
    cases hg : dictGet known f.name with
    | none => simp [unchangedB, hg, ih]
    | some r =>
      by_cases hc : changed hexdigest r f
      · simp [unchangedB, hg, hc, ih]
      · simp [unchangedB, hg, hc, ih]

theorem classify_current_count (hexdigest : List Nat → String)
    (known : List (String × FileRecord)) (files : List MdFile) :
    (classify_current hexdigest known files).1.length +
      (classify_current hexdigest known files).2.1.length +
      (classify_current hexdigest known files).2.2 = files.length := by
  induction files with
  | nil => rfl
  | cons f rest ih =>
    simp only [classify_current]
    cases hg : dictGet known f.name with
    | none =>
      simp only [hg, List.length_cons]
      omega
    | some r =>
      by_cases hc : changed hexdigest r f
      · simp only [hg, if_pos hc, List.length_cons]
        omega
      · simp only [hg, if_neg hc, List.length_cons]
        omega

theorem detect_delta_to_add (hexdigest : List Nat → String)
    (files : List MdFile) (st : SyncState) :
    (detect_delta hexdigest files st).to_add =
      files.filter fun f => (dictGet st.files f.name).isNone :=
  classify_current_fst hexdigest st.files files

theorem detect_delta_to_update (hexdigest : List Nat → String)
    (files : List MdFile) (st : SyncState) :
    (detect_delta hexdigest files st).to_update =
      files.filterMap (classU hexdigest st.files) :=
  classify_current_upd hexdigest st.files files

theorem detect_delta_skipped (hexdigest : List Nat → String)
    (files : List MdFile) (st : SyncState) :
    (detect_delta hexdigest files st).skipped =
      (files.filter (unchangedB hexdigest st.files)).length :=
  classify_current_skip hexdigest st.files files

theorem detect_delta_removed (hexdigest : List Nat → String)
    (files : List MdFile) (st : SyncState) :
    (detect_delta hexdigest files st).removed =
      (dictKeys st.files).filter fun n =>
        decide (n ∉ files.map MdFile.name) := rfl

theorem classU_fst (hexdigest : List Nat → String)
    (known : List (String × FileRecord)) (f : MdFile) (y : MdFile × String)
    (h : classU hexdigest known f = some y) : y.1 = f := by
  unfold classU at h
  split at h
  · exact Option.noConfusion h
  · split at h
    · injection h with h2
      rw [← h2]
    · exact Option.noConfusion h

theorem mem_filterMap_classU (hexdigest : List Nat → String)
    (known : List (String × FileRecord)) (files : List MdFile)
    (pu : MdFile × String) :
    pu ∈ files.filterMap (classU hexdigest known) ↔
      pu.1 ∈ files ∧ classU hexdigest known pu.1 = some pu := by
  rw [List.mem_filterMap]
  constructor
  · rintro ⟨a, ha, hc⟩
    have he := classU_fst hexdigest known a pu hc
    rw [he]
    exact ⟨ha, hc⟩
  · rintro ⟨ha, hc⟩
    exact ⟨pu.1, ha, hc⟩

theorem map_fst_filterMap_classU (hexdigest : List Nat → String)
    (known : List (String × FileRecord)) (files : List MdFile) :
    (files.filterMap (classU hexdigest known)).map Prod.fst =
      files.filter fun f => (classU hexdigest known f).isSome := by
  induction files with
  | nil => rfl
  | cons f rest ih =>
    rw [List.filterMap_cons, List.filter_cons]
    cases hc : classU hexdigest known f with
    | none => simp [hc, ih]
    | some y =>
      have h1 : y.1 = f := classU_fst hexdigest known f y hc
      simp [hc, ih, h1]

theorem nodup_to_add_names (hexdigest : List Nat → String)
    (files : List MdFile) (st : SyncState)
    (hnd : (files.map MdFile.name).Nodup) :
    ((detect_delta hexdigest files st).to_add.map MdFile.name).Nodup := by
  rw [detect_delta_to_add]
  exact ((List.filter_sublist files).map MdFile.name).nodup hnd

theorem nodup_to_update_names (hexdigest : List Nat → String)
    (files : List MdFile) (st : SyncState)
    (hnd : (files.map MdFile.name).Nodup) :
    ((detect_delta hexdigest files st).to_update.map fun pu => pu.1.name).Nodup := by
  rw [detect_delta_to_update]
  have h1 : ((files.filterMap (classU hexdigest st.files)).map
      fun pu => pu.1.name) =
      ((files.filterMap (classU hexdigest st.files)).map Prod.fst).map
        MdFile.name := by
    rw [List.map_map]
    rfl
  rw [h1, map_fst_filterMap_classU]
  exact ((List.filter_sublist files).map MdFile.name).nodup hnd

theorem mem_add_names_iff (hexdigest : List Nat → String) (files : List MdFile)
    (st : SyncState) (f : MdFile) (hnd : (files.map MdFile.name).Nodup)
    (hf : f ∈ files) :
    f.name ∈ (detect_delta hexdigest files st).to_add.map MdFile.name ↔
      dictGet st.files f.name = none := by
  rw [detect_delta_to_add]
  constructor
  · intro hm
    rcases List.mem_map.mp hm with ⟨g, hg, he⟩
    rcases List.mem_filter.mp hg with ⟨hgf, hp⟩
    have hgeq : g = f := List.inj_on_of_nodup_map hnd hgf hf he
    rw [← hgeq]
    exact Option.isNone_iff_eq_none.mp (by simpa using hp)
  · intro hn
    exact List.mem_map.mpr
      ⟨f, List.mem_filter.mpr ⟨hf, by simp [hn]⟩, rfl⟩

theorem mem_upd_names_iff (hexdigest : List Nat → String) (files : List MdFile)
    (st : SyncState) (f : MdFile) (hnd : (files.map MdFile.name).Nodup)
    (hf : f ∈ files) :
    f.name ∈ ((detect_delta hexdigest files st).to_update.map
        fun pu => pu.1.name) ↔
      (classU hexdigest st.files f).isSome := by
  rw [detect_delta_to_update]
  constructor
  · intro hm
    rcases List.mem_map.mp hm with ⟨pu, hpu, he⟩
    rcases (mem_filterMap_classU hexdigest st.files files pu).mp hpu
      with ⟨hp1, hp2⟩
    have hgeq : pu.1 = f := List.inj_on_of_nodup_map hnd hp1 hf he
    rw [← hgeq, hp2]
    rfl
  · intro hs
    cases hc : classU hexdigest st.files f with
    | none => rw [hc] at hs; exact Bool.noConfusion hs
    | some y =>
      have h1 : y.1 = f := classU_fst hexdigest st.files f y hc
      refine List.mem_map.mpr ⟨y, ?_, by rw [h1]⟩
      exact (mem_filterMap_classU hexdigest st.files files y).mpr
        (by rw [h1]; exact ⟨hf, hc⟩)

theorem mem_removed_iff (hexdigest : List Nat → String) (files : List MdFile)
    (st : SyncState) (n : String) :
    n ∈ (detect_delta hexdigest files st).removed ↔
      n ∈ dictKeys st.files ∧ n ∉ files.map MdFile.name := by
  rw [detect_delta_removed]
  simp [List.mem_filter]

/-! ### Lemmas about the upload phase -/

theorem delete_loop_eq (o : Oracle) (l : List (MdFile × String)) :
    delete_loop o l =
      (l.filter fun pu => o.vsDelete pu.2 && o.fileDelete pu.2).map
        Prod.snd := by
  induction l with
  | nil => rfl
  | cons pu rest ih =>
    rw [List.filter_cons]
    by_cases h1 : o.vsDelete pu.2
    · by_cases h2 : o.fileDelete pu.2
      · simp [delete_loop, h1, h2, ih]
      · simp [delete_loop, h1, h2, ih]
    · simp [delete_loop, h1, ih]

theorem uploadLoop_ok (o : Oracle) (l : List MdFile)
    (h : ∀ p ∈ l, uploadStep o p ≠ none) :
    uploadLoop o l =
      (some (l.map fun p => (p.name, (uploadStep o p).getD "")),
        l.map MdFile.name) := by
  induction l with
  | nil => rfl
  | cons p rest ih =>
    have hp := h p (List.mem_cons_self p rest)
    cases hs : uploadStep o p with
    | none => exact absurd hs hp
    | some fid =>
      have hrest := ih fun q hq => h q (List.mem_cons_of_mem p hq)
      simp [uploadLoop, hs, hrest]

theorem uploadLoop_fail (o : Oracle) (pre : List MdFile) (p : MdFile)
    (rest : List MdFile) (hpre : ∀ q ∈ pre, uploadStep o q ≠ none)
    (hp : uploadStep o p = none) :
    uploadLoop o (pre ++ p :: rest) = (none, pre.map MdFile.name ++ [p.name]) := by
  induction pre with
  | nil => simp [uploadLoop, hp]
  | cons q pre ih =>
    have hq := hpre q (List.mem_cons_self q pre)
    cases hs : uploadStep o q with
    | none => exact absurd hs hq
    | some fid =>
      have := ih fun x hx => hpre x (List.mem_cons_of_mem q hx)
      simp [uploadLoop, hs, this]

/-! ### The chunked digest absorbs exactly the file's bytes -/

theorem foldl_readChunksAux (n : Nat) (hn : n ≠ 0) :
    ∀ (fuel : Nat) (data a : List Nat), data.length ≤ fuel →
      (readChunksAux n fuel data).foldl sha256_update a = a ++ data := by
  intro fuel
  induction fuel with
  | zero =>
    intro data a hlen
    have hd : data = [] := List.eq_nil_of_length_eq_zero (Nat.le_zero.mp hlen)
    subst hd
    simp [readChunksAux]
  | succ m ih =>
    intro data a hlen
    cases data with
    | nil => simp [readChunksAux]
    | cons b bs =>
      simp only [readChunksAux, List.foldl_cons]
      have hdrop : ((b :: bs).drop n).length ≤ m := by
        rw [List.length_drop]
        have h2 : 0 < n := Nat.pos_of_ne_zero hn
        simp only [List.length_cons] at hlen ⊢
        omega
      rw [ih ((b :: bs).drop n) (sha256_update a ((b :: bs).take n)) hdrop]
      rw [sha256_update, List.append_assoc, List.take_append_drop]

theorem foldl_readChunks (n : Nat) (hn : n ≠ 0) (data a : List Nat) :
    (readChunks n data).foldl sha256_update a = a ++ data := by
  unfold readChunks
  rw [if_neg hn]
  exact foldl_readChunksAux n hn data.length data a le_rfl

/-! ### The files map after state reconciliation -/

theorem update_state_files (hexdigest : List Nat → String) (st0 : SyncState)
    (d : DeltaResult) (ids : List (String × String)) (t aid vsid : String)
    (files : List MdFile) :
    (update_state hexdigest st0 d ids t aid vsid files).files =
      d.removed.foldl dictErase
        (d.to_update.foldl
          (fun m pu => dictInsert m pu.1.name (record_for hexdigest ids t pu.1))
          (d.to_add.foldl
            (fun m f => dictInsert m f.name (record_for hexdigest ids t f))
            st0.files)) := rfl

theorem update_state_nodup_keys (hexdigest : List Nat → String)
    (st0 : SyncState) (d : DeltaResult) (ids : List (String × String))
    (t aid vsid : String) (files : List MdFile)
    (hst : (dictKeys st0.files).Nodup) :
    (dictKeys (update_state hexdigest st0 d ids t aid vsid files).files).Nodup := by
  rw [update_state_files]
  exact nodup_dictKeys_eraseFold _ _
    (nodup_dictKeys_insertFold _ _ _ _
      (nodup_dictKeys_insertFold _ _ _ _ hst))

theorem update_state_get (hexdigest : List Nat → String) (st0 : SyncState)
    (d : DeltaResult) (ids : List (String × String)) (t aid vsid : String)
    (files : List MdFile) (n : String)
    (hst : (dictKeys st0.files).Nodup)
    (hU : (d.to_update.map fun pu => pu.1.name).Nodup)
    (hA : (d.to_add.map MdFile.name).Nodup) :
    dictGet (update_state hexdigest st0 d ids t aid vsid files).files n =
      if n ∈ d.removed then none
      else
        match d.to_update.find? (fun pu => decide (pu.1.name = n)) with
        | some pu => some (record_for hexdigest ids t pu.1)
        | none =>
          match d.to_add.find? (fun g => decide (g.name = n)) with
          | some g => some (record_for hexdigest ids t g)
          | none => dictGet st0.files n := by
  rw [update_state_files]
  rw [dictGet_eraseFold _ _ _
    (nodup_dictKeys_insertFold _ _ _ _
      (nodup_dictKeys_insertFold _ _ _ _ hst))]
  by_cases hr : n ∈ d.removed
  · rw [if_pos hr, if_pos hr]
  · rw [if_neg hr, if_neg hr]
    rw [dictGet_insertFold (fun pu => pu.1.name)
      (fun pu => record_for hexdigest ids t pu.1) d.to_update _ n hU]
    cases hf : d.to_update.find? (fun pu => decide (pu.1.name = n)) with
    | some pu => rfl
    | none =>
      simp only
      rw [dictGet_insertFold MdFile.name
        (fun f => record_for hexdigest ids t f) d.to_add _ n hA]
      cases d.to_add.find? fun g => decide (g.name = n) <;> rfl

theorem find?_to_add_some (hexdigest : List Nat → String)
    (files : List MdFile) (st : SyncState) (f : MdFile)
    (hnd : (files.map MdFile.name).Nodup)
    (hf : f ∈ files) (hmem : f ∈ (detect_delta hexdigest files st).to_add) :
    (detect_delta hexdigest files st).to_add.find?
      (fun g => decide (g.name = f.name)) = some f := by
  have h0 : ((detect_delta hexdigest files st).to_add.find?
      (fun g => decide (g.name = f.name))).isSome :=
    List.find?_isSome.mpr ⟨f, hmem, by simp⟩
  obtain ⟨g, hg⟩ := Option.isSome_iff_exists.mp h0
  have h1 : g.name = f.name := by simpa using List.find?_some hg
  have h2 : g ∈ (detect_delta hexdigest files st).to_add :=
    List.mem_of_find?_eq_some hg
  rw [detect_delta_to_add] at h2
  have h3 : g ∈ files := (List.mem_filter.mp h2).1
  have h4 : g = f := List.inj_on_of_nodup_map hnd h3 hf h1
  rw [hg, h4]

theorem find?_to_add_none (hexdigest : List Nat → String)
    (files : List MdFile) (st : SyncState) (f : MdFile)
    (hnd : (files.map MdFile.name).Nodup) (hf : f ∈ files)
    (hsome : dictGet st.files f.name ≠ none) :
    (detect_delta hexdigest files st).to_add.find?
      (fun g => decide (g.name = f.name)) = none := by
  rw [List.find?_eq_none]
  intro g hg hc
  have h1 : g.name = f.name := of_decide_eq_true hc
  rw [detect_delta_to_add] at hg
  rcases List.mem_filter.mp hg with ⟨h2, h3⟩
  have h4 : g = f := List.inj_on_of_nodup_map hnd h2 hf h1
  rw [h4] at h3
  exact hsome (Option.isNone_iff_eq_none.mp (by simpa using h3))

theorem find?_to_update_some (hexdigest : List Nat → String)
    (files : List MdFile) (st : SyncState) (f : MdFile) (fid : String)
    (hnd : (files.map MdFile.name).Nodup) (hf : f ∈ files)
    (hcl : classU hexdigest st.files f = some (f, fid)) :
    ∃ pu, (detect_delta hexdigest files st).to_update.find?
        (fun pu => decide (pu.1.name = f.name)) = some pu ∧ pu.1 = f := by
  have hm : (f, fid) ∈ (detect_delta hexdigest files st).to_update := by
    rw [detect_delta_to_update]
    exact (mem_filterMap_classU hexdigest st.files files (f, fid)).mpr ⟨hf, hcl⟩
  have h0 : ((detect_delta hexdigest files st).to_update.find?
      (fun pu => decide (pu.1.name = f.name))).isSome :=
    List.find?_isSome.mpr ⟨(f, fid), hm, by simp⟩
  obtain ⟨pu, hpu⟩ := Option.isSome_iff_exists.mp h0
  refine ⟨pu, hpu, ?_⟩
  have h1 : pu.1.name = f.name := by simpa using List.find?_some hpu
  have h2 : pu ∈ (detect_delta hexdigest files st).to_update :=
    List.mem_of_find?_eq_some hpu
  rw [detect_delta_to_update] at h2
  have h3 : pu.1 ∈ files :=
    ((mem_filterMap_classU hexdigest st.files files pu).mp h2).1
  exact List.inj_on_of_nodup_map hnd h3 hf h1

theorem find?_to_update_none (hexdigest : List Nat → String)
    (files : List MdFile) (st : SyncState) (f : MdFile)
    (hnd : (files.map MdFile.name).Nodup) (hf : f ∈ files)
    (hcl : classU hexdigest st.files f = none) :
    (detect_delta hexdigest files st).to_update.find?
      (fun pu => decide (pu.1.name = f.name)) = none := by
  rw [List.find?_eq_none]
  intro pu hpu hc
  have h1 : pu.1.name = f.name := of_decide_eq_true hc
  rw [detect_delta_to_update] at hpu
  rcases (mem_filterMap_classU hexdigest st.files files pu).mp hpu with ⟨h2, h3⟩
  have h4 : pu.1 = f := List.inj_on_of_nodup_map hnd h2 hf h1
  rw [h4] at h3
  rw [hcl] at h3
  exact Option.noConfusion h3

theorem classU_of_get_none (hexdigest : List Nat → String)
    (known : List (String × FileRecord)) (f : MdFile)
    (h : dictGet known f.name = none) : classU hexdigest known f = none := by
  unfold classU
  rw [h]

theorem classU_of_unchanged (hexdigest : List Nat → String)
    (known : List (String × FileRecord)) (f : MdFile) (r : FileRecord)
    (h : dictGet known f.name = some r) (hc : ¬ changed hexdigest r f) :
    classU hexdigest known f = none := by
  unfold classU
  rw [h]
  simp [hc]

theorem classU_of_changed (hexdigest : List Nat → String)
    (known : List (String × FileRecord)) (f : MdFile) (r : FileRecord)
    (h : dictGet known f.name = some r) (hc : changed hexdigest r f) :
    classU hexdigest known f = some (f, r.file_id.getD "") := by
  unfold classU
  rw [h]
  simp [hc]

theorem mem_to_add_intro (hexdigest : List Nat → String) (files : List MdFile)
    (st : SyncState) (f : MdFile) (hf : f ∈ files)
    (h : dictGet st.files f.name = none) :
    f ∈ (detect_delta hexdigest files st).to_add := by
  rw [detect_delta_to_add]
  exact List.mem_filter.mpr ⟨hf, by simp [h]⟩

theorem record_for_not_changed (hexdigest : List Nat → String)
    (ids : List (String × String)) (t : String) (f : MdFile) :
    ¬ changed hexdigest (record_for hexdigest ids t f) f := by
  unfold changed record_for
  simp

/-- After a successful reconciliation, every current file's key maps to a
record that the detector would classify as unchanged: either the freshly
written record of an added/updated file, or the untouched record of a
skipped file. -/
theorem post_run_file_unchanged (hexdigest : List Nat → String)
    (files : List MdFile) (st0 : SyncState) (ids : List (String × String))
    (t aid vsid : String) (hnd : (files.map MdFile.name).Nodup)
    (hst : (dictKeys st0.files).Nodup) (f : MdFile) (hf : f ∈ files) :
    ∃ r', dictGet (update_state hexdigest st0
        (detect_delta hexdigest files st0) ids t aid vsid files).files f.name
        = some r' ∧ ¬ changed hexdigest r' f := by
  have hU := nodup_to_update_names hexdigest files st0 hnd
  have hA := nodup_to_add_names hexdigest files st0 hnd
  have hget := update_state_get hexdigest st0
    (detect_delta hexdigest files st0) ids t aid vsid files f.name hst hU hA
  have hnr : f.name ∉ (detect_delta hexdigest files st0).removed := by
    intro hc
    exact ((mem_removed_iff hexdigest files st0 f.name).mp hc).2
      (List.mem_map_of_mem MdFile.name hf)
  rw [if_neg hnr] at hget
  cases hg : dictGet st0.files f.name with
  | none =>
    rw [find?_to_update_none hexdigest files st0 f hnd hf
      (classU_of_get_none hexdigest st0.files f hg)] at hget
    rw [find?_to_add_some hexdigest files st0 f hnd hf
      (mem_to_add_intro hexdigest files st0 f hf hg)] at hget
    exact ⟨record_for hexdigest ids t f, hget,
      record_for_not_changed hexdigest ids t f⟩
  | some r =>
    by_cases hc : changed hexdigest r f
    · obtain ⟨pu, hpu, hpu1⟩ := find?_to_update_some hexdigest files st0 f
        (r.file_id.getD "") hnd hf
        (classU_of_changed hexdigest st0.files f r hg hc)
      rw [hpu] at hget
      simp only at hget
      rw [hpu1] at hget
      exact ⟨record_for hexdigest ids t f, hget,
        record_for_not_changed hexdigest ids t f⟩
    · rw [find?_to_update_none hexdigest files st0 f hnd hf
        (classU_of_unchanged hexdigest st0.files f r hg hc)] at hget
      rw [find?_to_add_none hexdigest files st0 f hnd hf
        (by rw [hg]; exact fun h => Option.noConfusion h)] at hget
      rw [hg] at hget
      exact ⟨r, hget, hc⟩

/-- After reconciliation every key of the state is a current filename: keys
of files classified as removed were popped, and only current files were
inserted. -/
theorem post_run_keys_sub (hexdigest : List Nat → String)
    (files : List MdFile) (st0 : SyncState) (ids : List (String × String))
    (t aid vsid : String) (hst : (dictKeys st0.files).Nodup) (n : String)
    (hn : n ∈ dictKeys (update_state hexdigest st0
      (detect_delta hexdigest files st0) ids t aid vsid files).files) :
    n ∈ files.map MdFile.name := by
  rw [update_state_files] at hn
  have h2 := (mem_dictKeys_eraseFold _ _ n
    (nodup_dictKeys_insertFold _ _ _ _
      (nodup_dictKeys_insertFold _ _ _ _ hst))).mp hn
  rcases h2 with ⟨hk2, hnr⟩
  rw [mem_dictKeys_insertFold] at hk2
  rcases hk2 with hupd | hk1
  · rcases List.mem_map.mp hupd with ⟨pu, hpu, he⟩
    rw [detect_delta_to_update] at hpu
    have := ((mem_filterMap_classU hexdigest st0.files files pu).mp hpu).1
    rw [← he]
    exact List.mem_map_of_mem MdFile.name this
  · rw [mem_dictKeys_insertFold] at hk1
    rcases hk1 with hadd | hk0
    · rcases List.mem_map.mp hadd with ⟨g, hg, he⟩
      rw [detect_delta_to_add] at hg
      rw [← he]
      exact List.mem_map_of_mem MdFile.name (List.mem_filter.mp hg).1
    · by_contra hne
      exact hnr ((mem_removed_iff hexdigest files st0 n).mpr ⟨hk0, hne⟩)

/-- Running the detector against the reconciled state of a run over the same
files finds nothing to do: no adds, no updates, no removals, everything
skipped. -/
theorem detect_delta_after_run (hexdigest : List Nat → String)
    (files : List MdFile) (st0 : SyncState) (ids : List (String × String))
    (t aid vsid : String) (hnd : (files.map MdFile.name).Nodup)
    (hst : (dictKeys st0.files).Nodup) :
    detect_delta hexdigest files
      (update_state hexdigest st0 (detect_delta hexdigest files st0) ids t
        aid vsid files) =
      { to_add := [], to_update := [], removed := [], skipped := files.length } := by
  set st1 := update_state hexdigest st0 (detect_delta hexdigest files st0)
    ids t aid vsid files with hst1
  have hfile : ∀ f ∈ files, ∃ r', dictGet st1.files f.name = some r' ∧
      ¬ changed hexdigest r' f := fun f hf =>
    post_run_file_unchanged hexdigest files st0 ids t aid vsid hnd hst f hf
  have hadd : (detect_delta hexdigest files st1).to_add = [] := by
    rw [detect_delta_to_add, List.filter_eq_nil_iff]
    intro f hf
    obtain ⟨r', hr', -⟩ := hfile f hf
    simp [hr']
  have hupd : (detect_delta hexdigest files st1).to_update = [] := by
    rw [detect_delta_to_update, List.filterMap_eq_nil_iff]
    intro f hf
    obtain ⟨r', hr', hc⟩ := hfile f hf
    exact classU_of_unchanged hexdigest st1.files f r' hr' hc
  have hrem : (detect_delta hexdigest files st1).removed = [] := by
    rw [detect_delta_removed, List.filter_eq_nil_iff]
    intro n hn hdec
    have hmem : n ∈ files.map MdFile.name :=
      post_run_keys_sub hexdigest files st0 ids t aid vsid hst n hn
    exact (of_decide_eq_true hdec) hmem
  have hskip : (detect_delta hexdigest files st1).skipped = files.length := by
    rw [detect_delta_skipped]
    have : files.filter (unchangedB hexdigest st1.files) = files := by
      rw [List.filter_eq_self]
      intro f hf
      obtain ⟨r', hr', hc⟩ := hfile f hf
      unfold unchangedB
      rw [hr']
      exact decide_eq_true hc
    rw [this]
  cases hd : detect_delta hexdigest files st1 with
  | mk a u r s =>
    rw [hd] at hadd hupd hrem hskip
    simp only at hadd hupd hrem hskip
    rw [hadd, hupd, hrem, hskip]

theorem main_run_def (hexdigest : List Nat → String) (o : Oracle)
    (files : List MdFile) (st : SyncState) (t aid vsid : String) :
    main_run hexdigest o files st t aid vsid =
      match (if ((detect_delta hexdigest files st).to_add.isEmpty &&
            (detect_delta hexdigest files st).to_update.isEmpty) then some []
          else (upload_delta o (detect_delta hexdigest files st).to_add
            (detect_delta hexdigest files st).to_update).new_ids) with
      | none => none
      | some ids =>
        some (update_state hexdigest st (detect_delta hexdigest files st)
          ids t aid vsid files) := rfl

/-- A successful run's resulting state is the reconciliation of the detected
delta with some new-file-id map. -/
theorem main_run_eq (hexdigest : List Nat → String) (o : Oracle)
    (files : List MdFile) (st : SyncState) (t aid vsid : String)
    (st' : SyncState)
    (h : main_run hexdigest o files st t aid vsid = some st') :
    ∃ ids, st' = update_state hexdigest st (detect_delta hexdigest files st)
      ids t aid vsid files := by
  rw [main_run_def] at h
  split at h
  · exact Option.noConfusion h
  · injection h with h2
    exact ⟨_, h2.symm⟩

/-! ### Claim theorems -/

/-- C10: `compute_sha256`, which digests the file incrementally in 1 MiB
chunks, returns the same hex digest as hashing the file's entire byte
content in one pass, for every digest function and every content. -/
theorem compute_sha256_eq_onepass (hexdigest : List Nat → String)
    (data : List Nat) :
    compute_sha256 hexdigest data = sha256_onepass hexdigest data := by
  unfold compute_sha256 sha256_onepass
  rw [foldl_readChunks (1024 * 1024) (by norm_num) data []]
  rw [List.nil_append]

/-- C6: loading the persisted sync state never aborts the run: a missing
file, a permission error, any other read error, and a parse failure all
yield the empty default state, whose files map is empty. -/
theorem read_sync_state_defaults (parse : String → Option SyncState)
    (r : ReadOutcome) (h : readFails parse r) :
    read_sync_state parse r = emptySyncState ∧
      (read_sync_state parse r).files = [] := by
  cases r with
  | missing => exact ⟨rfl, rfl⟩
  | permissionDenied => exact ⟨rfl, rfl⟩
  | ioError => exact ⟨rfl, rfl⟩
  | content s =>
    have hp : parse s = none := h
    simp only [read_sync_state]
    rw [hp]
    exact ⟨rfl, rfl⟩

/-- C6 witness: unparseable content yields the empty default state. -/
theorem read_sync_state_defaults_witness :
    readFails (fun _ => none) (ReadOutcome.content "not json") ∧
    read_sync_state (fun _ => none) (ReadOutcome.content "not json") =
      emptySyncState ∧
    (read_sync_state (fun _ => none)
      (ReadOutcome.content "not json")).files = [] :=
  ⟨rfl, read_sync_state_defaults (fun _ => none)
    (ReadOutcome.content "not json") rfl⟩

/-- C4: `main`'s write trace never contains the run-summary artifact — its
count is zero, not one, on the success path and the failure path alike, so
no invocation writes a run summary. -/
theorem main_writes_no_run_summary (hexdigest : List Nat → String)
    (o : Oracle) (files : List MdFile) (st : SyncState) (t aid vsid : String) :
    (main_writes hexdigest o files st t aid vsid).count
      WriteTarget.runSummary = 0 := by
  unfold main_writes
  cases main_run hexdigest o files st t aid vsid with
  | none => rfl
  | some st1 => rfl

/-- C5: at the failing input — an empty current snapshot against a prior
state that knows `a.md` — `detect_delta` classifies every known key as
removed and the run pops them all, persisting an empty files map: no guard
refuses removals for an implausibly empty snapshot. -/
theorem empty_snapshot_wipes_state :
    (detect_delta exDigest [] exStateA).removed = ["a.md"] ∧
    main_run exDigest exOracleOK [] exStateA "t1" "A" "V" =
      some { emptySyncState with
        last_run := some "t1"
        assistant_id := some "A"
        vector_store_id := some "V"
        total_files := some 0
        total_size := some 0 } := by
  decide

/-- C3 counterexample: two files to add, the first upload raises — then
`upload_delta` returns no new-file-id map at all and the second file's
upload is never attempted, so one file's failure does prevent the rest of
the batch. -/
theorem upload_delta_failure_not_isolated :
    (upload_delta exOracleFailA [exFileA, exFileB] []).new_ids = none ∧
    "b.md" ∉ (upload_delta exOracleFailA [exFileA, exFileB] []).attempted ∧
    (upload_delta exOracleFailA [exFileA, exFileB] []).attempted = ["a.md"] := by
  decide

/-- C3 (amended): in `upload_delta` an upload failure aborts the batch: the
exception propagates, so no new-file-id map is returned (hence no
fingerprint of any file in the batch is recorded), the files before the
failing one are the only ones attempted, and the files after it are never
attempted. -/
theorem upload_delta_failure_aborts (o : Oracle) (add : List MdFile)
    (upd : List (MdFile × String)) (pre : List MdFile) (p : MdFile)
    (rest : List MdFile)
    (hsplit : upload_paths add upd = pre ++ p :: rest)
    (hpre : uploads_all_ok o pre)
    (hp : uploadStep o p = none) :
    (upload_delta o add upd).new_ids = none ∧
    (upload_delta o add upd).attempted = pre.map MdFile.name ++ [p.name] := by
  have h := uploadLoop_fail o pre p rest hpre hp
  constructor
  · show (uploadLoop o (upload_paths add upd)).1 = none
    rw [hsplit, h]
  · show (uploadLoop o (upload_paths add upd)).2 =
      pre.map MdFile.name ++ [p.name]
    rw [hsplit, h]

/-- C3 witness for the amended claim: the failing file heads the upload set
and nothing is returned. -/
theorem upload_delta_failure_aborts_witness :
    upload_paths [exFileA, exFileB] [] = [] ++ exFileA :: [exFileB] ∧
    uploads_all_ok exOracleFailA [] ∧
    uploadStep exOracleFailA exFileA = none ∧
    (upload_delta exOracleFailA [exFileA, exFileB] []).new_ids = none ∧
    (upload_delta exOracleFailA [exFileA, exFileB] []).attempted =
      [].map MdFile.name ++ [exFileA.name] :=
  ⟨by decide, by decide, by decide,
    upload_delta_failure_aborts exOracleFailA [exFileA, exFileB] [] []
      exFileA [exFileB] (by decide) (by decide) (by decide)⟩

/-- C7: a failure in either deletion call while retiring an updated file's
old remote artifact is swallowed: that old id is omitted from the
deleted-ids list, the list holds exactly the old ids whose two deletion
calls succeeded, and the file is still in the upload set and — when the
uploads succeed — present in the returned new-file-id map. -/
theorem upload_delta_delete_failure_nonfatal (o : Oracle)
    (add : List MdFile) (upd : List (MdFile × String)) (p : MdFile)
    (oid : String) (hmem : (p, oid) ∈ upd)
    (hfail : o.vsDelete oid = false ∨ o.fileDelete oid = false)
    (hok : uploads_all_ok o (upload_paths add upd)) :
    oid ∉ (upload_delta o add upd).deleted_ids ∧
    (upload_delta o add upd).deleted_ids =
      (upd.filter fun pu => o.vsDelete pu.2 && o.fileDelete pu.2).map
        Prod.snd ∧
    p ∈ upload_paths add upd ∧
    (p.name, (uploadStep o p).getD "") ∈
      (upload_delta o add upd).new_ids.getD [] := by
  have hdel : (upload_delta o add upd).deleted_ids =
      (upd.filter fun pu => o.vsDelete pu.2 && o.fileDelete pu.2).map
        Prod.snd := delete_loop_eq o upd
  have hpmem : p ∈ upload_paths add upd :=
    List.mem_append_right add (List.mem_map_of_mem Prod.fst hmem)
  refine ⟨?_, hdel, hpmem, ?_⟩
  · rw [hdel]
    intro hc
    rcases List.mem_map.mp hc with ⟨pu, hpu, he⟩
    rcases List.mem_filter.mp hpu with ⟨-, hb⟩
    rcases Bool.and_eq_true_iff.mp hb with ⟨hb1, hb2⟩
    rw [he] at hb1 hb2
    rcases hfail with hf | hf
    · rw [hf] at hb1; exact Bool.noConfusion hb1
    · rw [hf] at hb2; exact Bool.noConfusion hb2
  · have hloop := uploadLoop_ok o (upload_paths add upd) hok
    show (p.name, (uploadStep o p).getD "") ∈
      ((uploadLoop o (upload_paths add upd)).1.getD [])
    rw [hloop]
    exact List.mem_map_of_mem (fun q => (q.name, (uploadStep o q).getD ""))
      hpmem

/-- C7 witness: the vector-store delete of `old-a` fails, yet `a.md` is
re-uploaded and recorded. -/
theorem upload_delta_delete_failure_nonfatal_witness :
    (exFileA, "old-a") ∈ [(exFileA, "old-a")] ∧
    (exOracleDelFail.vsDelete "old-a" = false ∨
      exOracleDelFail.fileDelete "old-a" = false) ∧
    uploads_all_ok exOracleDelFail (upload_paths [] [(exFileA, "old-a")]) ∧
    "old-a" ∉ (upload_delta exOracleDelFail [] [(exFileA, "old-a")]).deleted_ids ∧
    (upload_delta exOracleDelFail [] [(exFileA, "old-a")]).deleted_ids =
      ([(exFileA, "old-a")].filter fun pu =>
        exOracleDelFail.vsDelete pu.2 && exOracleDelFail.fileDelete pu.2).map
        Prod.snd ∧
    exFileA ∈ upload_paths [] [(exFileA, "old-a")] ∧
    (exFileA.name, (uploadStep exOracleDelFail exFileA).getD "") ∈
      (upload_delta exOracleDelFail [] [(exFileA, "old-a")]).new_ids.getD [] := by
  refine ⟨by decide, by decide, by decide, ?_⟩
  have h := upload_delta_delete_failure_nonfatal exOracleDelFail []
    [(exFileA, "old-a")] exFileA "old-a" (by decide) (by decide) (by decide)
  exact ⟨h.1, h.2.1, h.2.2.1, h.2.2.2⟩

/-- C1: over current files with distinct names and a prior state whose map
has unique keys, `detect_delta` partitions the keys: a name in the added
set is a current filename and in no other category, likewise for the
updated set; removed is exactly the prior keys absent from the current
names; every current filename is added, updated, or counted unchanged; each
category is duplicate-free; skipped is the number of unchanged current
files, and added + updated + skipped equals the number of current files. -/
theorem detect_delta_partitions (hexdigest : List Nat → String)
    (files : List MdFile) (st : SyncState) (n : String)
    (hnd : (files.map MdFile.name).Nodup)
    (hst : (dictKeys st.files).Nodup) :
    (n ∈ (detect_delta hexdigest files st).to_add.map MdFile.name →
      n ∈ files.map MdFile.name ∧
      n ∉ (detect_delta hexdigest files st).to_update.map
        (fun pu => pu.1.name) ∧
      n ∉ (detect_delta hexdigest files st).removed) ∧
    (n ∈ (detect_delta hexdigest files st).to_update.map
        (fun pu => pu.1.name) →
      n ∈ files.map MdFile.name ∧
      n ∉ (detect_delta hexdigest files st).to_add.map MdFile.name ∧
      n ∉ (detect_delta hexdigest files st).removed) ∧
    (n ∈ (detect_delta hexdigest files st).removed ↔
      n ∈ dictKeys st.files ∧ n ∉ files.map MdFile.name) ∧
    (n ∈ files.map MdFile.name →
      n ∈ (detect_delta hexdigest files st).to_add.map MdFile.name ∨
      n ∈ (detect_delta hexdigest files st).to_update.map
        (fun pu => pu.1.name) ∨
      n ∈ (files.filter (unchangedB hexdigest st.files)).map MdFile.name) ∧
    ((detect_delta hexdigest files st).to_add.map MdFile.name).Nodup ∧
    ((detect_delta hexdigest files st).to_update.map
      fun pu => pu.1.name).Nodup ∧
    (detect_delta hexdigest files st).removed.Nodup ∧
    (detect_delta hexdigest files st).skipped =
      (files.filter (unchangedB hexdigest st.files)).length ∧
    (detect_delta hexdigest files st).to_add.length +
      (detect_delta hexdigest files st).to_update.length +
      (detect_delta hexdigest files st).skipped = files.length := by
  refine ⟨?_, ?_, mem_removed_iff hexdigest files st n, ?_,
    nodup_to_add_names hexdigest files st hnd,
    nodup_to_update_names hexdigest files st hnd, ?_,
    detect_delta_skipped hexdigest files st,
    classify_current_count hexdigest st.files files⟩
  · intro hadd
    rcases List.mem_map.mp hadd with ⟨g, hg, he⟩
    have hg2 := hg
    rw [detect_delta_to_add] at hg2
    have hgf : g ∈ files := (List.mem_filter.mp hg2).1
    have hnone : dictGet st.files g.name = none :=
      Option.isNone_iff_eq_none.mp (by simpa using (List.mem_filter.mp hg2).2)
    have hnames : n ∈ files.map MdFile.name :=
      he ▸ List.mem_map_of_mem MdFile.name hgf
    refine ⟨hnames, ?_, fun hrem =>
      ((mem_removed_iff hexdigest files st n).mp hrem).2 hnames⟩
    intro hupd
    rw [← he] at hupd
    have h1 := (mem_upd_names_iff hexdigest files st g hnd hgf).mp hupd
    rw [classU_of_get_none hexdigest st.files g hnone] at h1
    exact Bool.noConfusion h1
  · intro hupd
    rcases List.mem_map.mp hupd with ⟨pu, hpu, he⟩
    rw [detect_delta_to_update] at hpu
    have hmem := (mem_filterMap_classU hexdigest st.files files pu).mp hpu
    have hgf : pu.1 ∈ files := hmem.1
    have hnames : n ∈ files.map MdFile.name :=
      he ▸ List.mem_map_of_mem MdFile.name hgf
    refine ⟨hnames, ?_, fun hrem =>
      ((mem_removed_iff hexdigest files st n).mp hrem).2 hnames⟩
    intro hadd
    rw [← he] at hadd
    have h2 := (mem_add_names_iff hexdigest files st pu.1 hnd hgf).mp hadd
    have h3 := classU_of_get_none hexdigest st.files pu.1 h2
    exact Option.noConfusion (hmem.2.symm.trans h3)
  · intro hn
    rcases List.mem_map.mp hn with ⟨f, hf, he⟩
    subst he
    cases hg : dictGet st.files f.name with
    | none =>
      exact Or.inl ((mem_add_names_iff hexdigest files st f hnd hf).mpr hg)
    | some r =>
      by_cases hc : changed hexdigest r f
      · refine Or.inr (Or.inl ?_)
        apply (mem_upd_names_iff hexdigest files st f hnd hf).mpr
        rw [classU_of_changed hexdigest st.files f r hg hc]
        rfl
      · refine Or.inr (Or.inr ?_)
        apply List.mem_map_of_mem
        apply List.mem_filter.mpr
        refine ⟨hf, ?_⟩
        unfold unchangedB
        rw [hg]
        exact decide_eq_true hc
  · rw [detect_delta_removed]
    exact hst.filter _

/-- C1 witness: the partition at a concrete snapshot with one added, one
updated and one removed key, checked at the removed key. -/
theorem detect_delta_partitions_witness :
    ([exFileA, exFileB].map MdFile.name).Nodup ∧
    (dictKeys exStateMix.files).Nodup ∧
    (("c.md" ∈ (detect_delta exDigest [exFileA, exFileB]
        exStateMix).to_add.map MdFile.name →
      "c.md" ∈ [exFileA, exFileB].map MdFile.name ∧
      "c.md" ∉ (detect_delta exDigest [exFileA, exFileB]
        exStateMix).to_update.map (fun pu => pu.1.name) ∧
      "c.md" ∉ (detect_delta exDigest [exFileA, exFileB]
        exStateMix).removed) ∧
    ("c.md" ∈ (detect_delta exDigest [exFileA, exFileB]
        exStateMix).to_update.map (fun pu => pu.1.name) →
      "c.md" ∈ [exFileA, exFileB].map MdFile.name ∧
      "c.md" ∉ (detect_delta exDigest [exFileA, exFileB]
        exStateMix).to_add.map MdFile.name ∧
      "c.md" ∉ (detect_delta exDigest [exFileA, exFileB]
        exStateMix).removed) ∧
    ("c.md" ∈ (detect_delta exDigest [exFileA, exFileB]
        exStateMix).removed ↔
      "c.md" ∈ dictKeys exStateMix.files ∧
      "c.md" ∉ [exFileA, exFileB].map MdFile.name) ∧
    ("c.md" ∈ [exFileA, exFileB].map MdFile.name →
      "c.md" ∈ (detect_delta exDigest [exFileA, exFileB]
        exStateMix).to_add.map MdFile.name ∨
      "c.md" ∈ (detect_delta exDigest [exFileA, exFileB]
        exStateMix).to_update.map (fun pu => pu.1.name) ∨
      "c.md" ∈ ([exFileA, exFileB].filter
        (unchangedB exDigest exStateMix.files)).map MdFile.name) ∧
    ((detect_delta exDigest [exFileA, exFileB]
      exStateMix).to_add.map MdFile.name).Nodup ∧
    ((detect_delta exDigest [exFileA, exFileB]
      exStateMix).to_update.map fun pu => pu.1.name).Nodup ∧
    (detect_delta exDigest [exFileA, exFileB] exStateMix).removed.Nodup ∧
    (detect_delta exDigest [exFileA, exFileB] exStateMix).skipped =
      ([exFileA, exFileB].filter
        (unchangedB exDigest exStateMix.files)).length ∧
    (detect_delta exDigest [exFileA, exFileB] exStateMix).to_add.length +
      (detect_delta exDigest [exFileA, exFileB]
        exStateMix).to_update.length +
      (detect_delta exDigest [exFileA, exFileB] exStateMix).skipped =
      [exFileA, exFileB].length) :=
  ⟨by decide, by decide,
    detect_delta_partitions exDigest [exFileA, exFileB] exStateMix "c.md"
      (by decide) (by decide)⟩

/-- C2: for a current file whose stored record's hash equals its freshly
computed digest, the file is classified as updated if and only if both the
stored change marker and the newly parsed marker are present and differ;
if either marker is null, the file is neither updated nor added — it is
counted as unchanged. -/
theorem date_only_update_iff (hexdigest : List Nat → String)
    (files : List MdFile) (st : SyncState) (f : MdFile) (r : FileRecord)
    (hnd : (files.map MdFile.name).Nodup) (hf : f ∈ files)
    (hr : dictGet st.files f.name = some r)
    (hh : r.hash = some (compute_sha256 hexdigest f.bytes)) :
    (f.name ∈ ((detect_delta hexdigest files st).to_update.map
        fun pu => pu.1.name) ↔
      (r.last_modified ≠ none ∧ file_last_modified f ≠ none ∧
        r.last_modified ≠ file_last_modified f)) ∧
    ((r.last_modified = none ∨ file_last_modified f = none) →
      f.name ∉ ((detect_delta hexdigest files st).to_update.map
        fun pu => pu.1.name) ∧
      f.name ∉ (detect_delta hexdigest files st).to_add.map MdFile.name) := by
  have hiff := mem_upd_names_iff hexdigest files st f hnd hf
  have hcls : ((classU hexdigest st.files f).isSome = true) ↔
      changed hexdigest r f := by
    unfold classU
    rw [hr]
    by_cases hc : changed hexdigest r f
    · simp [hc]
    · simp [hc]
  have hch : changed hexdigest r f ↔
      (r.last_modified ≠ none ∧ file_last_modified f ≠ none ∧
        r.last_modified ≠ file_last_modified f) := by
    unfold changed
    rw [hh]
    simp only [ne_eq, not_true_eq_false, false_or]
    tauto
  constructor
  · rw [hiff, hcls, hch]
  · intro h0
    constructor
    · rw [hiff, hcls, hch]
      rcases h0 with h0 | h0
      · exact fun hcon => hcon.1 h0
      · exact fun hcon => hcon.2.1 h0
    · rw [mem_add_names_iff hexdigest files st f hnd hf, hr]
      simp

/-- C2 witness: `a.md`'s bytes are unchanged and its new marker is null, so
the date path cannot trigger and the file is neither updated nor added. -/
theorem date_only_update_iff_witness :
    ([exFileA, exFileB].map MdFile.name).Nodup ∧
    exFileA ∈ [exFileA, exFileB] ∧
    dictGet exStateA.files exFileA.name = some exRecordA ∧
    exRecordA.hash = some (compute_sha256 exDigest exFileA.bytes) ∧
    ((exFileA.name ∈ ((detect_delta exDigest [exFileA, exFileB]
        exStateA).to_update.map fun pu => pu.1.name) ↔
      (exRecordA.last_modified ≠ none ∧
        file_last_modified exFileA ≠ none ∧
        exRecordA.last_modified ≠ file_last_modified exFileA)) ∧
    ((exRecordA.last_modified = none ∨ file_last_modified exFileA = none) →
      exFileA.name ∉ ((detect_delta exDigest [exFileA, exFileB]
        exStateA).to_update.map fun pu => pu.1.name) ∧
      exFileA.name ∉ (detect_delta exDigest [exFileA, exFileB]
        exStateA).to_add.map MdFile.name)) :=
  ⟨by decide, by decide, by decide, by decide,
    date_only_update_iff exDigest [exFileA, exFileB] exStateA exFileA
      exRecordA (by decide) (by decide) (by decide) (by decide)⟩

theorem post_run_get_added (hexdigest : List Nat → String)
    (files : List MdFile) (st0 : SyncState) (ids : List (String × String))
    (t aid vsid : String) (hnd : (files.map MdFile.name).Nodup)
    (hst : (dictKeys st0.files).Nodup) (f : MdFile)
    (hf : f ∈ (detect_delta hexdigest files st0).to_add) :
    dictGet (update_state hexdigest st0 (detect_delta hexdigest files st0)
      ids t aid vsid files).files f.name =
      some (record_for hexdigest ids t f) := by
  have hf2 := hf
  rw [detect_delta_to_add] at hf2
  have hff : f ∈ files := (List.mem_filter.mp hf2).1
  have hnone : dictGet st0.files f.name = none :=
    Option.isNone_iff_eq_none.mp (by simpa using (List.mem_filter.mp hf2).2)
  have hget := update_state_get hexdigest st0
    (detect_delta hexdigest files st0) ids t aid vsid files f.name hst
    (nodup_to_update_names hexdigest files st0 hnd)
    (nodup_to_add_names hexdigest files st0 hnd)
  have hnr : f.name ∉ (detect_delta hexdigest files st0).removed := fun hc =>
    ((mem_removed_iff hexdigest files st0 f.name).mp hc).2
      (List.mem_map_of_mem MdFile.name hff)
  rw [if_neg hnr] at hget
  rw [find?_to_update_none hexdigest files st0 f hnd hff
    (classU_of_get_none hexdigest st0.files f hnone)] at hget
  simp only at hget
  rw [find?_to_add_some hexdigest files st0 f hnd hff hf] at hget
  simp only at hget
  exact hget

theorem post_run_get_updated (hexdigest : List Nat → String)
    (files : List MdFile) (st0 : SyncState) (ids : List (String × String))
    (t aid vsid : String) (hnd : (files.map MdFile.name).Nodup)
    (hst : (dictKeys st0.files).Nodup) (pu : MdFile × String)
    (hpu : pu ∈ (detect_delta hexdigest files st0).to_update) :
    dictGet (update_state hexdigest st0 (detect_delta hexdigest files st0)
      ids t aid vsid files).files pu.1.name =
      some (record_for hexdigest ids t pu.1) := by
  have hpu2 := hpu
  rw [detect_delta_to_update] at hpu2
  have hmem := (mem_filterMap_classU hexdigest st0.files files pu).mp hpu2
  have hff : pu.1 ∈ files := hmem.1
  have hget := update_state_get hexdigest st0
    (detect_delta hexdigest files st0) ids t aid vsid files pu.1.name hst
    (nodup_to_update_names hexdigest files st0 hnd)
    (nodup_to_add_names hexdigest files st0 hnd)
  have hnr : pu.1.name ∉ (detect_delta hexdigest files st0).removed :=
    fun hc => ((mem_removed_iff hexdigest files st0 pu.1.name).mp hc).2
      (List.mem_map_of_mem MdFile.name hff)
  rw [if_neg hnr] at hget
  obtain ⟨pu2, hfind, hfst⟩ := find?_to_update_some hexdigest files st0
    pu.1 pu.2 hnd hff hmem.2
  rw [hfind] at hget
  simp only at hget
  rw [hfst] at hget
  exact hget

theorem post_run_get_removed (hexdigest : List Nat → String)
    (files : List MdFile) (st0 : SyncState) (ids : List (String × String))
    (t aid vsid : String) (hnd : (files.map MdFile.name).Nodup)
    (hst : (dictKeys st0.files).Nodup) (n : String)
    (hn : n ∈ (detect_delta hexdigest files st0).removed) :
    dictGet (update_state hexdigest st0 (detect_delta hexdigest files st0)
      ids t aid vsid files).files n = none := by
  have hget := update_state_get hexdigest st0
    (detect_delta hexdigest files st0) ids t aid vsid files n hst
    (nodup_to_update_names hexdigest files st0 hnd)
    (nodup_to_add_names hexdigest files st0 hnd)
  rw [if_pos hn] at hget
  exact hget

/-- C9: after a successful run, every file classified added or updated maps
in the persisted state to a record whose hash field is the freshly computed
digest of that file's bytes, and every key classified removed is absent
from the files map outright. -/
theorem post_run_invariant (hexdigest : List Nat → String) (o : Oracle)
    (files : List MdFile) (st0 st1 : SyncState) (t aid vsid : String)
    (hnd : (files.map MdFile.name).Nodup)
    (hst : (dictKeys st0.files).Nodup)
    (h1 : main_run hexdigest o files st0 t aid vsid = some st1) :
    ((detect_delta hexdigest files st0).to_add.map fun f =>
        (dictGet st1.files f.name).map FileRecord.hash) =
      ((detect_delta hexdigest files st0).to_add.map fun f =>
        some (some (compute_sha256 hexdigest f.bytes))) ∧
    ((detect_delta hexdigest files st0).to_update.map fun pu =>
        (dictGet st1.files pu.1.name).map FileRecord.hash) =
      ((detect_delta hexdigest files st0).to_update.map fun pu =>
        some (some (compute_sha256 hexdigest pu.1.bytes))) ∧
    ((detect_delta hexdigest files st0).removed.map fun n =>
        dictGet st1.files n) =
      ((detect_delta hexdigest files st0).removed.map fun _ =>
        (none : Option FileRecord)) := by
  obtain ⟨ids, hids⟩ := main_run_eq hexdigest o files st0 t aid vsid st1 h1
  subst hids
  refine ⟨List.map_congr_left ?_, List.map_congr_left ?_,
    List.map_congr_left ?_⟩
  · intro f hf
    rw [post_run_get_added hexdigest files st0 ids t aid vsid hnd hst f hf]
    rfl
  · intro pu hpu
    rw [post_run_get_updated hexdigest files st0 ids t aid vsid hnd hst
      pu hpu]
    rfl
  · intro n hn
    rw [post_run_get_removed hexdigest files st0 ids t aid vsid hnd hst n hn]

/-- C9 witness: a concrete successful run with one added, one updated and
one removed key satisfies the post-run state invariant. -/
theorem post_run_invariant_witness :
    ([exFileA, exFileB].map MdFile.name).Nodup ∧
    (dictKeys exStateMix.files).Nodup ∧
    main_run exDigest exOracleOK [exFileA, exFileB] exStateMix "t1" "A" "V" =
      some exPostMix ∧
    (((detect_delta exDigest [exFileA, exFileB] exStateMix).to_add.map
        fun f => (dictGet exPostMix.files f.name).map FileRecord.hash) =
      ((detect_delta exDigest [exFileA, exFileB] exStateMix).to_add.map
        fun f => some (some (compute_sha256 exDigest f.bytes))) ∧
    ((detect_delta exDigest [exFileA, exFileB] exStateMix).to_update.map
        fun pu => (dictGet exPostMix.files pu.1.name).map FileRecord.hash) =
      ((detect_delta exDigest [exFileA, exFileB] exStateMix).to_update.map
        fun pu => some (some (compute_sha256 exDigest pu.1.bytes))) ∧
    ((detect_delta exDigest [exFileA, exFileB] exStateMix).removed.map
        fun n => dictGet exPostMix.files n) =
      ((detect_delta exDigest [exFileA, exFileB] exStateMix).removed.map
        fun _ => (none : Option FileRecord))) :=
  ⟨by decide, by decide, by decide,
    post_run_invariant exDigest exOracleOK [exFileA, exFileB] exStateMix
      exPostMix "t1" "A" "V" (by decide) (by decide) (by decide)⟩

/-- C8: a second run over the same files detects zero added, updated and
removed entries (every file is skipped), succeeds, and persists a state
that differs from the first run's only in the bookkeeping timestamp — with
the timestamp equalized, the serialized states are byte-for-byte equal. -/
theorem sync_idempotent (hexdigest : List Nat → String) (o o2 : Oracle)
    (files : List MdFile) (st0 st1 : SyncState) (t1 t2 aid vsid : String)
    (hnd : (files.map MdFile.name).Nodup)
    (hst : (dictKeys st0.files).Nodup)
    (h1 : main_run hexdigest o files st0 t1 aid vsid = some st1) :
    (detect_delta hexdigest files st1).to_add = [] ∧
    (detect_delta hexdigest files st1).to_update = [] ∧
    (detect_delta hexdigest files st1).removed = [] ∧
    (detect_delta hexdigest files st1).skipped = files.length ∧
    main_run hexdigest o2 files st1 t2 aid vsid =
      some { st1 with last_run := some t2 } ∧
    (main_run hexdigest o2 files st1 t2 aid vsid).map SyncState.files =
      some st1.files ∧
    (main_run hexdigest o2 files st1 t2 aid vsid).map
        (fun s => write_sync_state { s with last_run := st1.last_run }) =
      some (write_sync_state st1) := by
  obtain ⟨ids, hids⟩ := main_run_eq hexdigest o files st0 t1 aid vsid st1 h1
  subst hids
  have hd2 := detect_delta_after_run hexdigest files st0 ids t1 aid vsid
    hnd hst
  have hrun : main_run hexdigest o2 files
      (update_state hexdigest st0 (detect_delta hexdigest files st0) ids t1
        aid vsid files) t2 aid vsid =
      some { update_state hexdigest st0 (detect_delta hexdigest files st0)
        ids t1 aid vsid files with last_run := some t2 } := by
    rw [main_run_def, hd2]
    rfl
  refine ⟨by rw [hd2], by rw [hd2], by rw [hd2], by rw [hd2], hrun, ?_, ?_⟩
  · rw [hrun]
    rfl
  · rw [hrun]
    rfl

/-- C8 witness: a concrete second run over the same single file detects no
changes and persists the same state up to the run timestamp. -/
theorem sync_idempotent_witness :
    ([exFileB].map MdFile.name).Nodup ∧
    (dictKeys emptySyncState.files).Nodup ∧
    main_run exDigest exOracleOK [exFileB] emptySyncState "t1" "A" "V" =
      some exPostB ∧
    ((detect_delta exDigest [exFileB] exPostB).to_add = [] ∧
    (detect_delta exDigest [exFileB] exPostB).to_update = [] ∧
    (detect_delta exDigest [exFileB] exPostB).removed = [] ∧
    (detect_delta exDigest [exFileB] exPostB).skipped = [exFileB].length ∧
    main_run exDigest exOracleOK [exFileB] exPostB "t2" "A" "V" =
      some { exPostB with last_run := some "t2" } ∧
    (main_run exDigest exOracleOK [exFileB] exPostB "t2" "A" "V").map
        SyncState.files = some exPostB.files ∧
    (main_run exDigest exOracleOK [exFileB] exPostB "t2" "A" "V").map
        (fun s => write_sync_state { s with last_run := exPostB.last_run }) =
      some (write_sync_state exPostB)) :=
  ⟨by decide, by decide, by decide,
    sync_idempotent exDigest exOracleOK exOracleOK [exFileB] emptySyncState
      exPostB "t1" "t2" "A" "V" (by decide) (by decide) (by decide)⟩

end OptiSync
